import Mathlib

/-!
Verification of the TexSyn texture-synthesis library.

This file contains a shallow embedding of the two synthesis engines of the
repository — the Efros–Freeman patch-quilting engine (`src/quilt.rs`) and the
Efros–Leung pixel-growth search engine
(`libtexsyn/src/generators/per_pixel/search.rs`) — together with theorems
settling the specification claims about them.

Modelling conventions:
* images are total functions from pixel coordinates to pixels; pixel values
  are kept abstract where the code is generic over the distance function;
* `f64` scalar values (distances, accumulated seam costs) are modelled as
  `ℤ`: the claims about them involve only addition, minima and order
  comparisons, which integers share with the reals, and concrete integer
  instances evaluate by `decide`; the uniform probability draws of the
  candidate-selection gate, which live in `[0, 1]`, are modelled as `ℚ`;
* machine integers (`u32`) are modelled as `ℕ`;
* fallible operations return `Except ErrKind`; a Rust `panic!`/`assert!`
  abort is modelled by the `ErrKind.aborted` error, and a lookup of a
  missing `HashMap` key (which panics in Rust) by `Option`;
* the `HashMap`-based memoized cost maps are modelled as total functions
  `ℕ × ℕ → Option ℤ` threaded explicitly through the recursion;
* `thread_rng` draws are modelled by explicitly passed draw streams.
-/

namespace TexSyn

/-- An image, modelled as a total function from `(x, y)` coordinates to
pixels.  In the code an out-of-bounds `get_pixel` panics; every access made
by the theorems below is in bounds, so a total function is adequate. -/
def Img (Pix : Type) : Type := ℕ → ℕ → Pix

/-- Error kinds of the library (`errors::ErrorKind::InvalidArguments`), plus
a marker for a Rust `panic!`/`assert!` abort. The Rust variant carries a
message string; the message text is irrelevant to every claim so it is not
modelled. -/
inductive ErrKind : Type where
  | invalidArguments : ErrKind
  | aborted : ErrKind
deriving DecidableEq

/-- Enumerates the possible overlapping areas of two patches
(`quilt.rs` `enum OverlapArea`). -/
inductive OverlapArea : Type where
  | Top : OverlapArea
  | Left : OverlapArea
  | TopLeft : OverlapArea
deriving DecidableEq

/-- Translation of `quilt.rs::patch_overlap_area`: the Rust `match` tries
`(0, _) => Top` first, then `(_, 0) => Left`, then `(_, _) => TopLeft`.
The argument is the grid position `(patch_x, patch_y)` of the patch. -/
def patch_overlap_area : ℕ × ℕ → OverlapArea
  | (0, _) => OverlapArea.Top
  | (_ + 1, 0) => OverlapArea.Left
  | (_ + 1, _ + 1) => OverlapArea.TopLeft

/-- The record stored by `QuilterParams::new` on success (the distance
function is kept outside the record, as a separate parameter of each
operation that uses it). -/
structure QuilterParamsData : Type where
  size : ℕ × ℕ
  patch_size : ℕ
  overlap : ℕ
  seed_coords : Option (ℕ × ℕ)
  selection_chance : Option ℚ
deriving DecidableEq

/-- Translation of `quilt.rs::QuilterParams::new`: rejects a zero output
dimension, a zero overlap, `patch_size < 2 * overlap`, and a supplied
non-positive selection chance, in that order; otherwise stores the
parameters unchanged. -/
def QuilterParams.new (size : ℕ × ℕ) (patch_size overlap : ℕ)
    (seed_coords : Option (ℕ × ℕ)) (selection_chance : Option ℚ) :
    Except ErrKind QuilterParamsData :=
  if size.1 = 0 ∨ size.2 = 0 then
    Except.error ErrKind.invalidArguments
  else if overlap = 0 then
    Except.error ErrKind.invalidArguments
  else if patch_size < 2 * overlap then
    Except.error ErrKind.invalidArguments
  else
    match selection_chance with
    | some s =>
      if s ≤ 0 then Except.error ErrKind.invalidArguments
      else Except.ok ⟨size, patch_size, overlap, seed_coords, selection_chance⟩
    | none => Except.ok ⟨size, patch_size, overlap, seed_coords, selection_chance⟩

/-- Translation of `quilt.rs::Quilter::validate_params`: given the source
dimensions, rejects a patch size exceeding either source dimension, and a
seed patch that does not fit inside the source. -/
def Quilter.validate_params (patch_size : ℕ) (seed_coords : Option (ℕ × ℕ))
    (source_size : ℕ × ℕ) : Except ErrKind Unit :=
  if source_size.1 < patch_size ∨ source_size.2 < patch_size then
    Except.error ErrKind.invalidArguments
  else
    match seed_coords with
    | some c =>
      if source_size.1 < c.1 + patch_size ∨ source_size.2 < c.2 + patch_size then
        Except.error ErrKind.invalidArguments
      else Except.ok ()
    | none => Except.ok ()

/-- Model of `rand::distributions::Range::new(low, high)`: the rand crate
asserts `low < high` and aborts the process otherwise. -/
def rangeNew (low high : ℕ) : Except ErrKind (ℕ × ℕ) :=
  if low < high then Except.ok (low, high) else Except.error ErrKind.aborted

/-- The prefix of `quilt.rs::Quilter::quilt_image` up to and including the
choice of the seed-patch source corner: validate the parameters, build the
two random distributions `Range::new(0, source_dim - patch_size)`
unconditionally, then take the seed corner from `seed_coords` when present
and otherwise sample both distributions.  `rand_x`/`rand_y` model the
`ind_sample` draws from the two ranges. -/
def quilt_image_seed (source_size : ℕ × ℕ) (p : QuilterParamsData)
    (rand_x rand_y : ℕ × ℕ → ℕ) : Except ErrKind (ℕ × ℕ) :=
  match Quilter.validate_params p.patch_size p.seed_coords source_size with
  | Except.error e => Except.error e
  | Except.ok _ =>
    match rangeNew 0 (source_size.1 - p.patch_size) with
    | Except.error e => Except.error e
    | Except.ok xr =>
      match rangeNew 0 (source_size.2 - p.patch_size) with
      | Except.error e => Except.error e
      | Except.ok yr =>
        match p.seed_coords with
        | some c => Except.ok c
        | none => Except.ok (rand_x xr, rand_y yr)

/-- Translation of `search.rs::PixelSearchParams::new` (identical in
`quilt.rs`): rejects an even window size, stores everything else
unchanged. -/
def PixelSearchParams.new (size : ℕ × ℕ) (window_size : ℕ)
    (seed_coords : Option (ℕ × ℕ)) :
    Except ErrKind ((ℕ × ℕ) × ℕ × Option (ℕ × ℕ)) :=
  if window_size % 2 = 0 then Except.error ErrKind.invalidArguments
  else Except.ok (size, window_size, seed_coords)

/-- Translation of the seed-coordinate check of `search.rs::PixelSearch::new`
(identical in `quilt.rs`): with a supplied seed, fails exactly when
`x > source_width - 3` or `y > source_height - 1`. -/
def PixelSearch.new (source_size : ℕ × ℕ) (seed_coords : Option (ℕ × ℕ)) :
    Except ErrKind Unit :=
  match seed_coords with
  | some c =>
    if source_size.1 - 3 < c.1 ∨ source_size.2 - 1 < c.2 then
      Except.error ErrKind.invalidArguments
    else Except.ok ()
  | none => Except.ok ()

/-- Describes a square patch in the source image (`quilt.rs` `struct Patch`):
coordinates of the corner of the patch and its size in pixels. -/
structure Patch : Type where
  coords : ℕ × ℕ
  size : ℕ
deriving DecidableEq

/-- Translation of `quilt.rs::patch_rect_error`: sums the pixel distances
over a `rect_size = (width, height)` rectangle read at `coords_i1` in `img1`
and `coords_i2` in `img2` (outer loop over `y`, inner over `x`). -/
def patch_rect_error {Pix : Type} (dist : Pix → Pix → ℤ)
    (img1 img2 : Img Pix) (coords_i1 coords_i2 : ℕ × ℕ)
    (rect_size : ℕ × ℕ) : ℤ :=
  (List.range rect_size.2).foldl (fun acc y =>
    (List.range rect_size.1).foldl (fun acc x =>
      acc + dist (img1 (x + coords_i1.1) (y + coords_i1.2))
                 (img2 (x + coords_i2.1) (y + coords_i2.2))) acc) 0

/-- Translation of `quilt.rs::Quilter::patch_error`: the error between the
overlap area of `patch` (read from `source`) and the buffer at `buf_coords`.
The `Top` arm passes rectangle size `(overlap, patch.size)`, the `Left` arm
`(patch.size, overlap)`, and the `TopLeft` arm sums a
`(patch.size, overlap)` rectangle and an `(overlap, patch.size - overlap)`
rectangle shifted down by `overlap`. -/
def patch_error {Pix : Type} (dist : Pix → Pix → ℤ) (overlap : ℕ)
    (source buffer : Img Pix) (area : OverlapArea) (patch : Patch)
    (buf_coords : ℕ × ℕ) : ℤ :=
  match area with
  | OverlapArea.Top =>
    patch_rect_error dist source buffer patch.coords buf_coords
      (overlap, patch.size)
  | OverlapArea.Left =>
    patch_rect_error dist source buffer patch.coords buf_coords
      (patch.size, overlap)
  | OverlapArea.TopLeft =>
    patch_rect_error dist source buffer patch.coords buf_coords
      (patch.size, overlap) +
    patch_rect_error dist source buffer
      (patch.coords.1, patch.coords.2 + overlap)
      (buf_coords.1, buf_coords.2 + overlap)
      (overlap, patch.size - overlap)

/-- The region the specification prescribes for the `Top` overlap error: the
first `overlap` ROWS across the full patch width, each cell comparing the
candidate pixel and the buffer pixel at the same offset.  (Spec-side
definition, for comparison against `patch_error`.) -/
def specTopOverlapError {Pix : Type} (dist : Pix → Pix → ℤ)
    (source buffer : Img Pix) (patch_coords buf_coords : ℕ × ℕ)
    (patch_size overlap : ℕ) : ℤ :=
  ∑ y ∈ Finset.range overlap, ∑ x ∈ Finset.range patch_size,
    dist (source (patch_coords.1 + x) (patch_coords.2 + y))
         (buffer (buf_coords.1 + x) (buf_coords.2 + y))

/-- A freshly allocated error surface (`ErrorSurface::new` zero-fills). -/
def surfInit : ℕ × ℕ → ℤ := fun _ => 0

/-- `put_pixel` on an error surface. -/
def surfPut (s : ℕ × ℕ → ℤ) (x y : ℕ) (v : ℤ) : ℕ × ℕ → ℤ :=
  fun p => if p = (x, y) then v else s p

/-- Translation of `quilt.rs::Quilter::patch_error_surface`.  Note the
buffer read: the code reads `buffer.get_pixel(xs + x, ys + x)` — with `x`,
not `y`, as the row offset — in all three arms; the translation preserves
this. -/
def patch_error_surface {Pix : Type} (dist : Pix → Pix → ℤ)
    (patch_size overlap : ℕ) (source buffer : Img Pix) (area : OverlapArea)
    (patch : Patch) (buf_coords : ℕ × ℕ) : ℕ × ℕ → ℤ :=
  let xs := buf_coords.1
  let ys := buf_coords.2
  let px := patch.coords.1
  let py := patch.coords.2
  match area with
  | OverlapArea.Top =>
    (List.range patch_size).foldl (fun s x =>
      (List.range overlap).foldl (fun t y =>
        surfPut t x y (dist (source (px + x) (py + y))
                            (buffer (xs + x) (ys + x)))) s) surfInit
  | OverlapArea.Left =>
    (List.range overlap).foldl (fun s x =>
      (List.range patch_size).foldl (fun t y =>
        surfPut t x y (dist (source (px + x) (py + y))
                            (buffer (xs + x) (ys + x)))) s) surfInit
  | OverlapArea.TopLeft =>
    let s1 := (List.range patch_size).foldl (fun s x =>
      (List.range overlap).foldl (fun t y =>
        surfPut t x y (dist (source (px + x) (py + y))
                            (buffer (xs + x) (ys + x)))) s) surfInit
    (List.range overlap).foldl (fun s x =>
      (List.range' overlap (patch_size - overlap)).foldl (fun t y =>
        surfPut t x y (dist (source (px + x) (py + y))
                            (buffer (xs + x) (ys + x)))) s) s1

/-- A scalar distance function used to instantiate the generic pixel type
in concrete evaluations. -/
def absDist : ℤ → ℤ → ℤ := fun a b => if a ≤ b then b - a else a - b

/-- Concrete source image for the C1 evaluation: identically zero. -/
def srcC1 : Img ℤ := fun _ _ => 0

/-- Concrete buffer for the C1 evaluation: `5` at `(1,1)`, `7` at `(1,0)`,
zero elsewhere. -/
def bufC1 : Img ℤ := fun x y =>
  if x = 1 ∧ y = 1 then 5 else if x = 1 ∧ y = 0 then 7 else 0

/-- Concrete source image for the C2 evaluation: `5` at `(1,0)`, zero
elsewhere. -/
def srcC2 : Img ℤ := fun x y => if x = 1 ∧ y = 0 then 5 else 0

/-- The identically zero image. -/
def zeroImg : Img ℤ := fun _ _ => 0

/-- One full-grid visit of the probabilistic branch of
`quilt.rs::Quilter::select_candidate`: anchors are visited with `y` in
`0..=max_y` outer and `x` in `0..=max_x` inner, one uniform draw is taken
per anchor from the stream `draws`, and the anchor is scored exactly when
its draw `d` satisfies `d > chance` (the code's `if d > chance`).  Returns
the anchors that get scored during the visit. -/
def select_candidate_pass (chance : ℚ) (draws : ℕ → ℚ)
    (max_x max_y : ℕ) : List (ℕ × ℕ) :=
  (((List.range (max_y + 1)).bind (fun y =>
      (List.range (max_x + 1)).map (fun x => (x, y)))).enum).filterMap
    (fun ip => if chance < draws ip.1 then some ip.2 else none)

/-- The cells written by `blit_rect` for a 3×3 rectangle blitted at `dest`
(loop over `x` then `y`, writing `(dest.0 + x, dest.1 + y)`). -/
def seedBlitCellsAt (dest : ℕ × ℕ) : List (ℕ × ℕ) :=
  (List.range 3).bind (fun x =>
    (List.range 3).map (fun y => (dest.1 + x, dest.2 + y)))

/-- The corner of the 3×3 mask region marked filled by
`PixelSearch::synthesize` (both versions): `(w/2 - 1, h/2 - 1)`. -/
def synthMaskCorner (w h : ℕ) : ℕ × ℕ := (w / 2 - 1, h / 2 - 1)

/-- The buffer corner the seed block is blitted to in
`libtexsyn/src/generators/per_pixel/search.rs` line 99:
`(w/2 - 1, h/2 - 1)`. -/
def synthSeedDest (w h : ℕ) : ℕ × ℕ := (w / 2 - 1, h / 2 - 1)

/-- The buffer corner the seed block is blitted to in the `src/quilt.rs`
copy of `PixelSearch::synthesize` (line 649): `(w/2 - 1, w/2 - 1)`, using
the output width for both coordinates. -/
def synthSeedDestQuilt (w h : ℕ) : ℕ × ℕ := (w / 2 - 1, w / 2 - 1)

/-- The source corner of the 3×3 seed block chosen by
`PixelSearch::synthesize`: translated from
`(random::<u32>() % (source.width() - 3), random::<u32>() % (source.height() - 3))`.
The `seed_coords` parameter is accepted (it is validated by
`PixelSearch::new`) but the synthesize code never reads it; `r1`, `r2` model
the two `random::<u32>()` draws. -/
def synthSeedSource (source_w source_h : ℕ)
    (seed_coords : Option (ℕ × ℕ)) (r1 r2 : ℕ) : ℕ × ℕ :=
  (r1 % (source_w - 3), r2 % (source_h - 3))

/-- An error surface as the seam dynamic programming reads it: a total grid
of scalar cost values (`ErrorSurface` pixels accessed by `get_pixel`). -/
def Surf : Type := ℕ → ℕ → ℤ

/-- The sparse memoized cost map of the seam dynamic programming
(`type CostMap = HashMap<(u32, u32), OrderedFloat<f64>>` in `quilt.rs`),
modelled as a total function into `Option`: a missing key is `none`, and
indexing a missing key — a panic in Rust — propagates `none`. -/
def CostMap : Type := ℕ × ℕ → Option ℤ

/-- `HashMap::insert`. -/
def costInsert (m : CostMap) (k : ℕ × ℕ) (v : ℤ) : CostMap :=
  fun q => if q = k then some v else m q

/-- `CostMap::new()`: the empty map. -/
def costEmpty : CostMap := fun _ => none

/-- Translation of the inner `pixel_error` of `Quilter::vertical_cost_map`:
memoized recursion over the rows of the error surface, argument order
`(y, x, memo)`.  The memo is consulted first; row `0` is the base case
(raw error value); otherwise the costs of the up-to-3 cells directly above
are computed in the code's order — same column, then column − 1 when
`x ≠ 0`, then column + 1 when `x ≠ overlap − 1` — threading the memo, the
running minimum is kept via `if v < val`, the cell's own error value is
added, and the result is memoized. -/
def vertical_pixel_error (e : Surf) (overlap : ℕ) :
    ℕ → ℕ → CostMap → ℤ × CostMap
  | 0, x, m =>
    match m (x, 0) with
    | some v => (v, m)
    | none => (e x 0, costInsert m (x, 0) (e x 0))
  | y + 1, x, m =>
    match m (x, y + 1) with
    | some v => (v, m)
    | none =>
      let p1 := vertical_pixel_error e overlap y x m
      let p2 :=
        if x ≠ 0 then
          let q := vertical_pixel_error e overlap y (x - 1) p1.2
          (if q.1 < p1.1 then q.1 else p1.1, q.2)
        else p1
      let p3 :=
        if x ≠ overlap - 1 then
          let q := vertical_pixel_error e overlap y (x + 1) p2.2
          (if q.1 < p2.1 then q.1 else p2.1, q.2)
        else p2
      let r := p3.1 + e x (y + 1)
      (r, costInsert p3.2 (x, y + 1) r)

/-- Translation of `Quilter::vertical_cost_map`: runs the memoized
recursion from the bottom row `patch_size - 1` of every column
`x < overlap`, starting from the empty map, and returns the final map. -/
def vertical_cost_map (e : Surf) (overlap patch_size : ℕ) : CostMap :=
  (List.range overlap).foldl
    (fun m x => (vertical_pixel_error e overlap (patch_size - 1) x m).2)
    costEmpty

/-- Translation of the inner `pixel_error` of `Quilter::horizontal_cost_map`
(the exact transpose of the vertical case), argument order `(x, y, memo)`:
column `0` is the base case, and the up-to-3 cells directly to the left are
combined — same row, then row − 1 when `y ≠ 0`, then row + 1 when
`y ≠ overlap − 1`. -/
def horizontal_pixel_error (e : Surf) (overlap : ℕ) :
    ℕ → ℕ → CostMap → ℤ × CostMap
  | 0, y, m =>
    match m (0, y) with
    | some v => (v, m)
    | none => (e 0 y, costInsert m (0, y) (e 0 y))
  | x + 1, y, m =>
    match m (x + 1, y) with
    | some v => (v, m)
    | none =>
      let p1 := horizontal_pixel_error e overlap x y m
      let p2 :=
        if y ≠ 0 then
          let q := horizontal_pixel_error e overlap x (y - 1) p1.2
          (if q.1 < p1.1 then q.1 else p1.1, q.2)
        else p1
      let p3 :=
        if y ≠ overlap - 1 then
          let q := horizontal_pixel_error e overlap x (y + 1) p2.2
          (if q.1 < p2.1 then q.1 else p2.1, q.2)
        else p2
      let r := p3.1 + e (x + 1) y
      (r, costInsert p3.2 (x + 1, y) r)

/-- Translation of `Quilter::horizontal_cost_map`: runs the memoized
recursion from the rightmost column `patch_size - 1` of every row
`y < overlap`, starting from the empty map. -/
def horizontal_cost_map (e : Surf) (overlap patch_size : ℕ) : CostMap :=
  (List.range overlap).foldl
    (fun m y => (horizontal_pixel_error e overlap (patch_size - 1) y m).2)
    costEmpty

/-- The vertical-seam cost recurrence exactly as the claim states it: at row
0 the accumulated cost is the raw error value, and at row `y + 1` it is the
cell's own error value plus the minimum accumulated cost among the up-to-3
cells directly above it (same column, column − 1, column + 1, clipped at
the overlap edges).  Claim-side reference definition; the theorems show the
code's memo maps agree with it everywhere. -/
def vCost (e : Surf) (overlap : ℕ) : ℕ → ℕ → ℤ
  | 0, x => e x 0
  | y + 1, x =>
    let a := vCost e overlap y x
    let b := if x ≠ 0 then min (vCost e overlap y (x - 1)) a else a
    let c := if x ≠ overlap - 1 then min (vCost e overlap y (x + 1)) b else b
    c + e x (y + 1)

/-- The horizontal-seam cost recurrence as the claim states it: the exact
transpose of `vCost`, accumulated along increasing column index within row
range `[0, overlap)`. -/
def hCost (e : Surf) (overlap : ℕ) : ℕ → ℕ → ℤ
  | 0, y => e 0 y
  | x + 1, y =>
    let a := hCost e overlap x y
    let b := if y ≠ 0 then min (hCost e overlap x (y - 1)) a else a
    let c := if y ≠ overlap - 1 then min (hCost e overlap x (y + 1)) b else b
    c + e (x + 1) y

/-- Invariant: every entry of a memo agrees with the vertical recurrence. -/
def VMemoAgrees (e : Surf) (overlap : ℕ) (m : CostMap) : Prop :=
  ∀ a b v, m (a, b) = some v → v = vCost e overlap b a

/-- Invariant: a memo of the vertical recursion is downward closed along
columns — the cell below any present cell is present. -/
def VMemoClosed (m : CostMap) : Prop :=
  ∀ a b, (m (a, b + 1)).isSome → (m (a, b)).isSome

/-- Invariant: every entry of a memo agrees with the horizontal
recurrence. -/
def HMemoAgrees (e : Surf) (overlap : ℕ) (m : CostMap) : Prop :=
  ∀ a b v, m (a, b) = some v → v = hCost e overlap a b

/-- Invariant: a memo of the horizontal recursion is leftward closed along
rows. -/
def HMemoClosed (m : CostMap) : Prop :=
  ∀ a b, (m (a + 1, b)).isSome → (m (a, b)).isSome

/-- Concrete error surface used to instantiate the seam-DP theorems. -/
def surfC4 : Surf := fun x y => (x : ℤ) + 2 * y

/-- Collect the cost-map values at the given keys, in order
(`(0..overlap).map(|x| cost_map[&(x, ..)]).collect::<Vec<_>>()`); indexing a
missing key panics in Rust, modelled by `none`. -/
def mapLookups (m : CostMap) : List (ℕ × ℕ) → Option (List ℤ)
  | [] => some []
  | k :: ks =>
    match m k with
    | none => none
    | some v =>
      match mapLookups m ks with
      | none => none
      | some vs => some (v :: vs)

/-- The running state of Rust `Iterator::min_by` over an enumerated list of
values: `bi`/`bv` are the best index and value so far, `i` the index of the
head of the remaining list; a later element replaces the best only when
strictly smaller, so the FIRST minimal element wins — `min_by`'s documented
tie behaviour. -/
def argminGo : ℕ → ℤ → ℕ → List ℤ → ℕ
  | bi, _, _, [] => bi
  | bi, bv, i, w :: ws =>
    if w < bv then argminGo i w (i + 1) ws else argminGo bi bv (i + 1) ws

/-- `row.into_iter().enumerate().min_by(value comparison).unwrap().0`:
the index of the first minimal element; `none` models the `unwrap` panic on
an empty row. -/
def argminIdx : List ℤ → Option ℕ
  | [] => none
  | v :: vs => some (argminGo 0 v 1 vs)

/-- One iteration of the while-loop of
`Quilter::minimum_cost_vertical_path`: from column `x` (one row above
`y0`), read `top = cost_map[(x, y0)]` and, following the code's branches on
`x == 0` / `x == overlap - 1`, the left/right entries of row `y0`, and
return the column chosen for row `y0`.  Every `cost_map[..]` of a missing
key — a panic in Rust — is `none`. -/
def vpath_step (m : CostMap) (overlap x y0 : ℕ) : Option ℕ :=
  match m (x, y0) with
  | none => none
  | some top =>
    if x = 0 then
      match m (x + 1, y0) with
      | none => none
      | some right => some (if right < top then x + 1 else x)
    else if x = overlap - 1 then
      match m (x - 1, y0) with
      | none => none
      | some left => some (if left < top then x - 1 else x)
    else
      match m (x - 1, y0) with
      | none => none
      | some left =>
        match m (x + 1, y0) with
        | none => none
        | some right =>
          some (if left < top then (if left < right then x - 1 else x)
                else if right < top then x + 1 else x)

/-- The while-loop of `Quilter::minimum_cost_vertical_path`: starting one
row above `y0 = y - 1`, repeatedly choose the next column and push
`(x, y0)` until row 0 has been pushed; returns the pushed suffix. -/
def vpath_walk (m : CostMap) (overlap : ℕ) : ℕ → ℕ → Option (List (ℕ × ℕ))
  | 0, _ => some []
  | y0 + 1, x =>
    match vpath_step m overlap x y0 with
    | none => none
    | some x1 =>
      match vpath_walk m overlap y0 x1 with
      | none => none
      | some l => some ((x1, y0) :: l)

/-- Translation of `Quilter::minimum_cost_vertical_path`: build the bottom
row of accumulated costs, pick the column of its first minimum, then walk
upward row by row. -/
def minimum_cost_vertical_path (e : Surf) (overlap patch_size : ℕ) :
    Option (List (ℕ × ℕ)) :=
  let m := vertical_cost_map e overlap patch_size
  match mapLookups m ((List.range overlap).map (fun x => (x, patch_size - 1))) with
  | none => none
  | some row =>
    match argminIdx row with
    | none => none
    | some x0 =>
      match vpath_walk m overlap (patch_size - 1) x0 with
      | none => none
      | some l => some ((x0, patch_size - 1) :: l)

/-- One iteration of the while-loop of
`Quilter::minimum_cost_horizontal_path` (the transpose of `vpath_step`):
from row `y` one column right of `x0`, read `left = cost_map[(x0, y)]` and,
branching on `y == 0` / `y == overlap - 1`, the up/down entries of column
`x0`, and return the row chosen for column `x0`. -/
def hpath_step (m : CostMap) (overlap x0 y : ℕ) : Option ℕ :=
  match m (x0, y) with
  | none => none
  | some left =>
    if y = 0 then
      match m (x0, y + 1) with
      | none => none
      | some down => some (if down < left then y + 1 else y)
    else if y = overlap - 1 then
      match m (x0, y - 1) with
      | none => none
      | some up => some (if up < left then y - 1 else y)
    else
      match m (x0, y - 1) with
      | none => none
      | some up =>
        match m (x0, y + 1) with
        | none => none
        | some down =>
          some (if up < left then (if up < down then y - 1 else y)
                else if down < left then y + 1 else y)

/-- The while-loop of `Quilter::minimum_cost_horizontal_path`: walk
leftward column by column. -/
def hpath_walk (m : CostMap) (overlap : ℕ) : ℕ → ℕ → Option (List (ℕ × ℕ))
  | 0, _ => some []
  | x0 + 1, y =>
    match hpath_step m overlap x0 y with
    | none => none
    | some y1 =>
      match hpath_walk m overlap x0 y1 with
      | none => none
      | some l => some ((x0, y1) :: l)

/-- Translation of `Quilter::minimum_cost_horizontal_path`: build the
rightmost column of accumulated costs, pick the row of its first minimum,
then walk leftward column by column. -/
def minimum_cost_horizontal_path (e : Surf) (overlap patch_size : ℕ) :
    Option (List (ℕ × ℕ)) :=
  let m := horizontal_cost_map e overlap patch_size
  match mapLookups m ((List.range overlap).map (fun y => (patch_size - 1, y))) with
  | none => none
  | some column =>
    match argminIdx column with
    | none => none
    | some y0 =>
      match hpath_walk m overlap (patch_size - 1) y0 with
      | none => none
      | some l => some ((patch_size - 1, y0) :: l)

/-- Claim C3 counterexample: grid cell `(1, 0)` lies in the first grid row
(`patch_y = 0`), yet `patch_overlap_area` assigns it `Left`, not `Top` as
the claim states. -/
theorem patch_overlap_area_first_row_is_left :
    patch_overlap_area (1, 0) = OverlapArea.Left ∧
    OverlapArea.Left ≠ OverlapArea.Top := by
  decide

/-- Claim C3 (amended): for every grid cell other than `(0,0)`, the overlap
area is determined purely from the grid position, with the first grid
COLUMN (`patch_x = 0`) mapped to `Top`, the first grid ROW (`patch_y = 0`)
mapped to `Left`, and every other cell mapped to `TopLeft`. -/
theorem patch_overlap_area_by_grid_position (p : ℕ × ℕ) (hp : p ≠ (0, 0)) :
    (p.1 = 0 → patch_overlap_area p = OverlapArea.Top) ∧
    (p.1 ≠ 0 → p.2 = 0 → patch_overlap_area p = OverlapArea.Left) ∧
    (p.1 ≠ 0 → p.2 ≠ 0 → patch_overlap_area p = OverlapArea.TopLeft) := by
  obtain ⟨a, b⟩ := p
  match a, b with
  | 0, 0 => exact absurd rfl hp
  | 0, b + 1 => exact ⟨fun _ => rfl, fun h => absurd rfl h, fun h _ => absurd rfl h⟩
  | a + 1, 0 => exact ⟨fun h => by omega, fun _ _ => rfl, fun _ h => absurd rfl h⟩
  | a + 1, b + 1 => exact ⟨fun h => by omega, fun _ h => by omega, fun _ _ => rfl⟩

/-- Witness for the amended claim C3 at the concrete cell `(0, 3)`. -/
theorem patch_overlap_area_by_grid_position_witness :
    ((0, 3) : ℕ × ℕ) ≠ (0, 0) ∧
    ((((0, 3) : ℕ × ℕ).1 = 0 → patch_overlap_area (0, 3) = OverlapArea.Top) ∧
     (((0, 3) : ℕ × ℕ).1 ≠ 0 → ((0, 3) : ℕ × ℕ).2 = 0 →
        patch_overlap_area (0, 3) = OverlapArea.Left) ∧
     (((0, 3) : ℕ × ℕ).1 ≠ 0 → ((0, 3) : ℕ × ℕ).2 ≠ 0 →
        patch_overlap_area (0, 3) = OverlapArea.TopLeft)) :=
  ⟨by decide, patch_overlap_area_by_grid_position (0, 3) (by decide)⟩

/-- Claim C8: `QuilterParams::new` succeeds — returning the parameters
unchanged — exactly when both output dimensions are non-zero, the overlap is
non-zero, `patch_size ≥ 2 * overlap`, and a supplied selection chance is
strictly positive; every violation yields an `InvalidArguments` error. -/
theorem quilter_params_new_ok_iff (size : ℕ × ℕ) (patch_size overlap : ℕ)
    (seed_coords : Option (ℕ × ℕ)) (selection_chance : Option ℚ) :
    (QuilterParams.new size patch_size overlap seed_coords selection_chance =
        Except.ok ⟨size, patch_size, overlap, seed_coords, selection_chance⟩ ↔
      (size.1 ≠ 0 ∧ size.2 ≠ 0 ∧ overlap ≠ 0 ∧ 2 * overlap ≤ patch_size ∧
        ∀ s, selection_chance = some s → 0 < s)) ∧
    (¬ (size.1 ≠ 0 ∧ size.2 ≠ 0 ∧ overlap ≠ 0 ∧ 2 * overlap ≤ patch_size ∧
        ∀ s, selection_chance = some s → 0 < s) →
      QuilterParams.new size patch_size overlap seed_coords selection_chance =
        Except.error ErrKind.invalidArguments) := by
  unfold QuilterParams.new
  constructor
  · constructor
    · intro h
      split at h
      · exact absurd h (by simp)
      · split at h
        · exact absurd h (by simp)
        · split at h
          · exact absurd h (by simp)
          · rename_i hsz hov hps
            push_neg at hsz
            refine ⟨hsz.1, hsz.2, hov, by omega, ?_⟩
            intro s hs
            subst hs
            simp only at h
            split at h
            · exact absurd h (by simp)
            · rename_i hle
              exact lt_of_not_le hle
    · rintro ⟨h1, h2, h3, h4, h5⟩
      rw [if_neg (by tauto), if_neg h3, if_neg (by omega)]
      match selection_chance with
      | none => rfl
      | some s =>
        have : ¬ s ≤ 0 := not_le_of_lt (h5 s rfl)
        simp only [this, if_false]
  · intro h
    by_cases h1 : size.1 = 0 ∨ size.2 = 0
    · rw [if_pos h1]
    · rw [if_neg h1]
      by_cases h2 : overlap = 0
      · rw [if_pos h2]
      · rw [if_neg h2]
        by_cases h3 : patch_size < 2 * overlap
        · rw [if_pos h3]
        · rw [if_neg h3]
          match hc : selection_chance with
          | none =>
            exfalso
            push_neg at h1
            exact h (by simp_all)
          | some s =>
            simp only
            by_cases h4 : s ≤ 0
            · rw [if_pos h4]
            · exfalso
              push_neg at h1 h4
              refine h ⟨h1.1, h1.2, h2, by omega, ?_⟩
              rintro t ht
              cases ht
              exact h4

/-- Claim C9: the pixel-search seed validation accepts a seed whose
`y`-coordinate leaves no room for a 3×3 block.  With a 10×10 source, a valid
odd window size and seed `(0, 8)`, both construction steps succeed even
though `8 > 10 - 3`, because the code compares the seed `y` against
`source_height - 1` instead of `source_height - 3`. -/
theorem pixel_search_new_accepts_tall_seed :
    PixelSearchParams.new (20, 20) 3 (some (0, 8)) =
      Except.ok ((20, 20), 3, some (0, 8)) ∧
    PixelSearch.new (10, 10) (some (0, 8)) = Except.ok () ∧
    10 - 3 < 8 :=
  ⟨rfl, rfl, by decide⟩

/-- Claim C10: whenever the patch size equals one of the source dimensions —
a configuration `validate_params` accepts — `quilt_image` aborts while
building the `Range::new(0, source_dim - patch_size)` distributions, and it
does so for every value of `seed_coords` (in particular when an explicit
seed is supplied), because the distributions are built before the seed blit
and unconditionally. -/
theorem quilt_image_seed_aborts_on_full_size_patch (source_size : ℕ × ℕ)
    (p : QuilterParamsData) (rand_x rand_y : ℕ × ℕ → ℕ)
    (hw : p.patch_size ≤ source_size.1) (hh : p.patch_size ≤ source_size.2)
    (heq : p.patch_size = source_size.1 ∨ p.patch_size = source_size.2)
    (hseed : ∀ c, p.seed_coords = some c →
      c.1 + p.patch_size ≤ source_size.1 ∧ c.2 + p.patch_size ≤ source_size.2) :
    Quilter.validate_params p.patch_size p.seed_coords source_size =
      Except.ok () ∧
    quilt_image_seed source_size p rand_x rand_y =
      Except.error ErrKind.aborted := by
  have hval : Quilter.validate_params p.patch_size p.seed_coords source_size =
      Except.ok () := by
    unfold Quilter.validate_params
    rw [if_neg (by omega)]
    match hc : p.seed_coords with
    | none => rfl
    | some c =>
      have := hseed c hc
      simp only
      rw [if_neg (by omega)]
  refine ⟨hval, ?_⟩
  unfold quilt_image_seed
  rw [hval]
  rcases heq with h | h
  · have : rangeNew 0 (source_size.1 - p.patch_size) =
        Except.error ErrKind.aborted := by
      unfold rangeNew
      rw [if_neg (by omega)]
    rw [this]
  · have hy : rangeNew 0 (source_size.2 - p.patch_size) =
        Except.error ErrKind.aborted := by
      unfold rangeNew
      rw [if_neg (by omega)]
    unfold rangeNew
    by_cases hx : 0 < source_size.1 - p.patch_size
    · rw [if_pos hx]
      rw [if_neg (by omega)]
    · rw [if_neg hx]

/-- Witness for claim C10: a 4×4 source, patch size 4, explicit seed `(0,0)`. -/
theorem quilt_image_seed_aborts_on_full_size_patch_witness :
    ((4 : ℕ) ≤ 4 ∧ (4 : ℕ) ≤ 4 ∧ ((4 : ℕ) = 4 ∨ (4 : ℕ) = 4) ∧
      (∀ c : ℕ × ℕ, (some ((0, 0) : ℕ × ℕ) = some c) →
        c.1 + 4 ≤ 4 ∧ c.2 + 4 ≤ 4)) ∧
    (Quilter.validate_params 4 (some (0, 0)) (4, 4) = Except.ok () ∧
      quilt_image_seed (4, 4) ⟨(2, 2), 4, 1, some (0, 0), none⟩
        (fun _ => 0) (fun _ => 0) = Except.error ErrKind.aborted) :=
  ⟨⟨le_refl 4, le_refl 4, Or.inl rfl, by rintro c ⟨rfl⟩; exact ⟨by decide, by decide⟩⟩,
    quilt_image_seed_aborts_on_full_size_patch (4, 4)
      ⟨(2, 2), 4, 1, some (0, 0), none⟩ (fun _ => 0) (fun _ => 0)
      (by decide) (by decide) (Or.inl rfl)
      (by rintro c ⟨rfl⟩; exact ⟨by decide, by decide⟩)⟩

/-- Claim C1: at the failing input (patch size 2, overlap 1, area `Top`,
source corner `(0,0)`, buffer corner `(0,0)`), the error-surface cell at
offset `(1, 0)` holds the distance to the buffer pixel at `(1, 1)` — the
code reads the buffer at `(xs + x, ys + x)` — and not, as the claim states,
the distance to the buffer pixel at the same offset `(1, 0)`. -/
theorem patch_error_surface_buffer_row_offset_is_x :
    patch_error_surface absDist 2 1 srcC1 bufC1 OverlapArea.Top
      ⟨(0, 0), 2⟩ (0, 0) (1, 0) = 5 ∧
    absDist (srcC1 (0 + 1) (0 + 0)) (bufC1 (0 + 1) (0 + 0)) = 7 ∧
    (5 : ℤ) ≠ 7 := by
  refine ⟨by decide, by decide, by decide⟩

/-- Claim C2: at the failing input (patch size 2, overlap 1, anchor `(0,0)`,
zero buffer, source holding `5` at offset `(1, 0)`), the `Top` candidate
error sums the first `overlap` COLUMNS over the full patch height and
misses the value `5` that the claimed region (first `overlap` rows over the
full width) contains; the `Left` arm, conversely, sums exactly that top
band. -/
theorem patch_error_top_and_left_regions_swapped :
    patch_error absDist 1 srcC2 zeroImg OverlapArea.Top ⟨(0, 0), 2⟩ (0, 0)
      = 0 ∧
    specTopOverlapError absDist srcC2 zeroImg (0, 0) (0, 0) 2 1 = 5 ∧
    patch_error absDist 1 srcC2 zeroImg OverlapArea.Left ⟨(0, 0), 2⟩ (0, 0)
      = 5 := by
  refine ⟨by decide, by decide, by decide⟩

/-- Claim C6: the probabilistic gate of `select_candidate` is inverted.
With a single-anchor grid and a uniform draw of `1/2`: under
`selection_chance = 9/10` the draw falls within the chance
(`1/2 ≤ 9/10`) yet the anchor is NOT scored, while under
`selection_chance = 1/20` the draw exceeds the chance and the anchor IS
scored — anchors are scored exactly when the draw is GREATER than
`selection_chance`, so raising `selection_chance` makes consideration less
likely, not more. -/
theorem select_candidate_gate_inverted :
    select_candidate_pass (9 / 10) (fun _ => 1 / 2) 0 0 = [] ∧
    ((0 : ℚ) ≤ 1 / 2 ∧ (1 : ℚ) / 2 ≤ 9 / 10) ∧
    select_candidate_pass (1 / 20) (fun _ => 1 / 2) 0 0 = [(0, 0)] ∧
    ¬ ((1 : ℚ) / 2 ≤ 1 / 20) := by
  refine ⟨?_, by norm_num, ?_, by norm_num⟩ <;>
    norm_num [select_candidate_pass] <;> try decide

/-- Claim C7: `PixelSearch::synthesize` never reads `seed_coords`: with
`seed_coords = some (5, 5)` on a 10×10 source and both random draws `0`,
the seed block is taken from `(0, 0)`.  The 9 buffer cells written do equal
the 9 mask cells marked in the `libtexsyn` version, but not in the
`src/quilt.rs` version (for an 8×6 output the blit lands at `(3, 3)` while
the mask is marked at `(3, 2)`). -/
theorem pixel_search_synthesize_ignores_seed_coords :
    synthSeedSource 10 10 (some (5, 5)) 0 0 = (0, 0) ∧
    ((0, 0) : ℕ × ℕ) ≠ (5, 5) ∧
    seedBlitCellsAt (synthSeedDest 8 6) = seedBlitCellsAt (synthMaskCorner 8 6) ∧
    seedBlitCellsAt (synthSeedDestQuilt 8 6) ≠ seedBlitCellsAt (synthMaskCorner 8 6) := by
  refine ⟨by decide, by decide, by decide, by decide⟩

theorem if_lt_eq_min (v a : ℤ) : (if v < a then v else a) = min v a := by
  rcases lt_or_ge v a with h | h
  · rw [if_pos h, min_eq_left h.le]
  · rw [if_neg (not_lt.mpr h), min_eq_right h]

theorem costInsert_self (m : CostMap) (k : ℕ × ℕ) (v : ℤ) :
    costInsert m k v k = some v := by
  unfold costInsert
  rw [if_pos rfl]

theorem costInsert_ne (m : CostMap) (k : ℕ × ℕ) (v : ℤ) (q : ℕ × ℕ)
    (h : q ≠ k) : costInsert m k v q = m q := by
  unfold costInsert
  rw [if_neg h]

theorem costInsert_isSome (m : CostMap) (k : ℕ × ℕ) (v : ℤ) (q : ℕ × ℕ)
    (h : (m q).isSome) : (costInsert m k v q).isSome := by
  unfold costInsert
  by_cases hq : q = k
  · rw [if_pos hq]
    rfl
  · rw [if_neg hq]
    exact h

theorem VMemoAgrees_insert (e : Surf) (overlap : ℕ) (m : CostMap)
    (x y : ℕ) (v : ℤ) (hA : VMemoAgrees e overlap m)
    (hv : v = vCost e overlap y x) :
    VMemoAgrees e overlap (costInsert m (x, y) v) := by
  intro a b w hw
  by_cases hq : ((a, b) : ℕ × ℕ) = (x, y)
  · unfold costInsert at hw
    rw [if_pos hq] at hw
    injection hq with ha hb
    subst ha
    subst hb
    injection hw with hw2
    rw [← hw2]
    exact hv
  · rw [costInsert_ne m (x, y) v (a, b) hq] at hw
    exact hA a b w hw

theorem VMemoClosed_insert_base (m : CostMap) (x : ℕ) (v : ℤ)
    (hC : VMemoClosed m) : VMemoClosed (costInsert m (x, 0) v) := by
  intro a b hb
  rw [costInsert_ne m (x, 0) v (a, b + 1) (by simp)] at hb
  exact costInsert_isSome m (x, 0) v (a, b) (hC a b hb)

theorem VMemoClosed_insert_succ (m : CostMap) (x y : ℕ) (v : ℤ)
    (hC : VMemoClosed m) (hbelow : (m (x, y)).isSome) :
    VMemoClosed (costInsert m (x, y + 1) v) := by
  intro a b hb
  by_cases hq : ((a, b + 1) : ℕ × ℕ) = (x, y + 1)
  · injection hq with ha hb2
    subst ha
    have hb3 : b = y := by omega
    subst hb3
    exact costInsert_isSome m (a, b + 1) v (a, b) hbelow
  · rw [costInsert_ne m (x, y + 1) v (a, b + 1) hq] at hb
    exact costInsert_isSome m (x, y + 1) v (a, b) (hC a b hb)

theorem vpe_zero_hit (e : Surf) (overlap x : ℕ) (m : CostMap) (v : ℤ)
    (h : m (x, 0) = some v) :
    vertical_pixel_error e overlap 0 x m = (v, m) := by
  unfold vertical_pixel_error
  rw [h]

theorem vpe_zero_miss (e : Surf) (overlap x : ℕ) (m : CostMap)
    (h : m (x, 0) = none) :
    vertical_pixel_error e overlap 0 x m =
      (e x 0, costInsert m (x, 0) (e x 0)) := by
  unfold vertical_pixel_error
  rw [h]

theorem vpe_succ_hit (e : Surf) (overlap y x : ℕ) (m : CostMap) (v : ℤ)
    (h : m (x, y + 1) = some v) :
    vertical_pixel_error e overlap (y + 1) x m = (v, m) := by
  unfold vertical_pixel_error
  rw [h]

theorem vpe_succ_miss_lone (e : Surf) (overlap y x : ℕ) (m : CostMap)
    (h : m (x, y + 1) = none) (hx0 : x = 0) (hxr : x = overlap - 1) :
    vertical_pixel_error e overlap (y + 1) x m =
      ((vertical_pixel_error e overlap y x m).1 + e x (y + 1),
       costInsert (vertical_pixel_error e overlap y x m).2 (x, y + 1)
         ((vertical_pixel_error e overlap y x m).1 + e x (y + 1))) := by
  subst hx0
  conv_lhs => rw [vertical_pixel_error]
  rw [h]
  dsimp only
  rw [if_neg (not_not_intro hxr), if_neg (not_not_intro rfl)]

theorem vpe_succ_miss_right (e : Surf) (overlap y x : ℕ) (m : CostMap)
    (h : m (x, y + 1) = none) (hx0 : x = 0) (hxr : x ≠ overlap - 1) :
    vertical_pixel_error e overlap (y + 1) x m =
      (min (vertical_pixel_error e overlap y (x + 1)
              (vertical_pixel_error e overlap y x m).2).1
           (vertical_pixel_error e overlap y x m).1 + e x (y + 1),
       costInsert (vertical_pixel_error e overlap y (x + 1)
              (vertical_pixel_error e overlap y x m).2).2 (x, y + 1)
         (min (vertical_pixel_error e overlap y (x + 1)
                 (vertical_pixel_error e overlap y x m).2).1
              (vertical_pixel_error e overlap y x m).1 + e x (y + 1))) := by
  subst hx0
  conv_lhs => rw [vertical_pixel_error]
  rw [h]
  dsimp only
  rw [if_pos hxr, if_neg (not_not_intro rfl), if_lt_eq_min]

theorem vpe_succ_miss_left (e : Surf) (overlap y x : ℕ) (m : CostMap)
    (h : m (x, y + 1) = none) (hx0 : x ≠ 0) (hxr : x = overlap - 1) :
    vertical_pixel_error e overlap (y + 1) x m =
      (min (vertical_pixel_error e overlap y (x - 1)
              (vertical_pixel_error e overlap y x m).2).1
           (vertical_pixel_error e overlap y x m).1 + e x (y + 1),
       costInsert (vertical_pixel_error e overlap y (x - 1)
              (vertical_pixel_error e overlap y x m).2).2 (x, y + 1)
         (min (vertical_pixel_error e overlap y (x - 1)
                 (vertical_pixel_error e overlap y x m).2).1
              (vertical_pixel_error e overlap y x m).1 + e x (y + 1))) := by
  conv_lhs => rw [vertical_pixel_error]
  rw [h]
  dsimp only
  rw [if_neg (not_not_intro hxr), if_pos hx0, if_lt_eq_min]

theorem vpe_succ_miss_mid (e : Surf) (overlap y x : ℕ) (m : CostMap)
    (h : m (x, y + 1) = none) (hx0 : x ≠ 0) (hxr : x ≠ overlap - 1) :
    vertical_pixel_error e overlap (y + 1) x m =
      (min (vertical_pixel_error e overlap y (x + 1)
              (vertical_pixel_error e overlap y (x - 1)
                (vertical_pixel_error e overlap y x m).2).2).1
           (min (vertical_pixel_error e overlap y (x - 1)
                   (vertical_pixel_error e overlap y x m).2).1
                (vertical_pixel_error e overlap y x m).1) + e x (y + 1),
       costInsert (vertical_pixel_error e overlap y (x + 1)
              (vertical_pixel_error e overlap y (x - 1)
                (vertical_pixel_error e overlap y x m).2).2).2 (x, y + 1)
         (min (vertical_pixel_error e overlap y (x + 1)
                 (vertical_pixel_error e overlap y (x - 1)
                   (vertical_pixel_error e overlap y x m).2).2).1
              (min (vertical_pixel_error e overlap y (x - 1)
                      (vertical_pixel_error e overlap y x m).2).1
                   (vertical_pixel_error e overlap y x m).1) + e x (y + 1))) := by
  conv_lhs => rw [vertical_pixel_error]
  rw [h]
  dsimp only
  rw [if_pos hxr, if_pos hx0, if_lt_eq_min, if_lt_eq_min]

theorem vCost_succ (e : Surf) (overlap y x : ℕ) :
    vCost e overlap (y + 1) x =
      (if x ≠ overlap - 1 then
         min (vCost e overlap y (x + 1))
           (if x ≠ 0 then min (vCost e overlap y (x - 1)) (vCost e overlap y x)
            else vCost e overlap y x)
       else
         (if x ≠ 0 then min (vCost e overlap y (x - 1)) (vCost e overlap y x)
          else vCost e overlap y x)) + e x (y + 1) :=
  rfl

theorem vertical_pixel_error_spec (e : Surf) (overlap : ℕ) :
    ∀ y x m, VMemoAgrees e overlap m → VMemoClosed m →
      (vertical_pixel_error e overlap y x m).1 = vCost e overlap y x ∧
      VMemoAgrees e overlap (vertical_pixel_error e overlap y x m).2 ∧
      VMemoClosed (vertical_pixel_error e overlap y x m).2 ∧
      (∀ k, (m k).isSome → ((vertical_pixel_error e overlap y x m).2 k).isSome) ∧
      ((vertical_pixel_error e overlap y x m).2 (x, y)).isSome := by
  intro y
  induction y with
  | zero =>
    intro x m hA hC
    cases hmm : m (x, 0) with
    | some v =>
      rw [vpe_zero_hit e overlap x m v hmm]
      exact ⟨hA x 0 v hmm, hA, hC, fun k hk => hk, by dsimp only; rw [hmm]; rfl⟩
    | none =>
      rw [vpe_zero_miss e overlap x m hmm]
      refine ⟨rfl, ?_, ?_, ?_, ?_⟩
      · exact VMemoAgrees_insert e overlap m x 0 (e x 0) hA rfl
      · exact VMemoClosed_insert_base m x (e x 0) hC
      · intro k hk
        exact costInsert_isSome m (x, 0) (e x 0) k hk
      · dsimp only
        rw [costInsert_self]
        rfl
  | succ y ih =>
    intro x m hA hC
    cases hmm : m (x, y + 1) with
    | some v =>
      rw [vpe_succ_hit e overlap y x m v hmm]
      exact ⟨hA x (y + 1) v hmm, hA, hC, fun k hk => hk, by dsimp only; rw [hmm]; rfl⟩
    | none =>
      obtain ⟨ha1, ha2, ha3, ha4, ha5⟩ := ih x m hA hC
      by_cases hx0 : x = 0 <;> by_cases hxr : x = overlap - 1
      · rw [vpe_succ_miss_lone e overlap y x m hmm hx0 hxr]
        have hr : (vertical_pixel_error e overlap y x m).1 + e x (y + 1) =
            vCost e overlap (y + 1) x := by
          rw [ha1, vCost_succ, if_neg (not_not_intro hxr),
            if_neg (not_not_intro hx0)]
        refine ⟨hr, VMemoAgrees_insert e overlap _ x (y + 1) _ ha2 hr,
          VMemoClosed_insert_succ _ x y _ ha3 ha5,
          fun k hk => costInsert_isSome _ _ _ k (ha4 k hk), ?_⟩
        dsimp only
        rw [costInsert_self]
        rfl
      · rw [vpe_succ_miss_right e overlap y x m hmm hx0 hxr]
        obtain ⟨hc1, hc2, hc3, hc4, hc5⟩ :=
          ih (x + 1) (vertical_pixel_error e overlap y x m).2 ha2 ha3
        have hr : min (vertical_pixel_error e overlap y (x + 1)
                (vertical_pixel_error e overlap y x m).2).1
              (vertical_pixel_error e overlap y x m).1 + e x (y + 1) =
            vCost e overlap (y + 1) x := by
          rw [ha1, hc1, vCost_succ, if_pos hxr, if_neg (not_not_intro hx0)]
        refine ⟨hr, VMemoAgrees_insert e overlap _ x (y + 1) _ hc2 hr,
          VMemoClosed_insert_succ _ x y _ hc3 (hc4 (x, y) ha5),
          fun k hk => costInsert_isSome _ _ _ k (hc4 k (ha4 k hk)), ?_⟩
        dsimp only
        rw [costInsert_self]
        rfl
      · rw [vpe_succ_miss_left e overlap y x m hmm hx0 hxr]
        obtain ⟨hb1, hb2, hb3, hb4, hb5⟩ :=
          ih (x - 1) (vertical_pixel_error e overlap y x m).2 ha2 ha3
        have hr : min (vertical_pixel_error e overlap y (x - 1)
                (vertical_pixel_error e overlap y x m).2).1
              (vertical_pixel_error e overlap y x m).1 + e x (y + 1) =
            vCost e overlap (y + 1) x := by
          rw [ha1, hb1, vCost_succ, if_neg (not_not_intro hxr), if_pos hx0]
        refine ⟨hr, VMemoAgrees_insert e overlap _ x (y + 1) _ hb2 hr,
          VMemoClosed_insert_succ _ x y _ hb3 (hb4 (x, y) ha5),
          fun k hk => costInsert_isSome _ _ _ k (hb4 k (ha4 k hk)), ?_⟩
        dsimp only
        rw [costInsert_self]
        rfl
      · rw [vpe_succ_miss_mid e overlap y x m hmm hx0 hxr]
        obtain ⟨hb1, hb2, hb3, hb4, hb5⟩ :=
          ih (x - 1) (vertical_pixel_error e overlap y x m).2 ha2 ha3
        obtain ⟨hc1, hc2, hc3, hc4, hc5⟩ :=
          ih (x + 1) (vertical_pixel_error e overlap y (x - 1)
            (vertical_pixel_error e overlap y x m).2).2 hb2 hb3
        have hr : min (vertical_pixel_error e overlap y (x + 1)
                (vertical_pixel_error e overlap y (x - 1)
                  (vertical_pixel_error e overlap y x m).2).2).1
              (min (vertical_pixel_error e overlap y (x - 1)
                      (vertical_pixel_error e overlap y x m).2).1
                   (vertical_pixel_error e overlap y x m).1) + e x (y + 1) =
            vCost e overlap (y + 1) x := by
          rw [ha1, hb1, hc1, vCost_succ, if_pos hxr, if_pos hx0]
        refine ⟨hr, VMemoAgrees_insert e overlap _ x (y + 1) _ hc2 hr,
          VMemoClosed_insert_succ _ x y _ hc3 (hc4 (x, y) (hb4 (x, y) ha5)),
          fun k hk => costInsert_isSome _ _ _ k (hc4 k (hb4 k (ha4 k hk))), ?_⟩
        dsimp only
        rw [costInsert_self]
        rfl

theorem vertical_cost_fold_spec (e : Surf) (overlap psize : ℕ) :
    ∀ (l : List ℕ) (m : CostMap), VMemoAgrees e overlap m → VMemoClosed m →
      VMemoAgrees e overlap
        (l.foldl (fun m x => (vertical_pixel_error e overlap (psize - 1) x m).2) m) ∧
      VMemoClosed
        (l.foldl (fun m x => (vertical_pixel_error e overlap (psize - 1) x m).2) m) ∧
      (∀ k, (m k).isSome →
        ((l.foldl (fun m x => (vertical_pixel_error e overlap (psize - 1) x m).2) m) k).isSome) ∧
      (∀ x ∈ l,
        ((l.foldl (fun m x => (vertical_pixel_error e overlap (psize - 1) x m).2) m)
          (x, psize - 1)).isSome) := by
  intro l
  induction l with
  | nil =>
    intro m hA hC
    exact ⟨hA, hC, fun k hk => hk, fun x hx => absurd hx (List.not_mem_nil x)⟩
  | cons a l ihl =>
    intro m hA hC
    obtain ⟨h1, h2, h3, h4, h5⟩ :=
      vertical_pixel_error_spec e overlap (psize - 1) a m hA hC
    obtain ⟨g1, g2, g3, g4⟩ :=
      ihl (vertical_pixel_error e overlap (psize - 1) a m).2 h2 h3
    refine ⟨g1, g2, fun k hk => g3 k (h4 k hk), ?_⟩
    intro x hx
    rcases List.mem_cons.mp hx with rfl | hx2
    · exact g3 (x, psize - 1) h5
    · exact g4 x hx2

theorem vertical_cost_map_spec (e : Surf) (overlap psize : ℕ) :
    VMemoAgrees e overlap (vertical_cost_map e overlap psize) ∧
    VMemoClosed (vertical_cost_map e overlap psize) ∧
    ∀ x < overlap, ((vertical_cost_map e overlap psize) (x, psize - 1)).isSome := by
  obtain ⟨g1, g2, g3, g4⟩ :=
    vertical_cost_fold_spec e overlap psize (List.range overlap) costEmpty
      (fun a b v hv => by simp [costEmpty] at hv)
      (fun a b hb => by simp [costEmpty] at hb)
  exact ⟨g1, g2, fun x hx => g4 x (List.mem_range.mpr hx)⟩

theorem VMemoClosed_descend (m : CostMap) (hC : VMemoClosed m) :
    ∀ b a, (m (a, b)).isSome → ∀ b2, b2 ≤ b → (m (a, b2)).isSome := by
  intro b
  induction b with
  | zero =>
    intro a h b2 hb2
    have hz : b2 = 0 := by omega
    subst hz
    exact h
  | succ b ihb =>
    intro a h b2 hb2
    rcases Nat.eq_or_lt_of_le hb2 with rfl | hlt
    · exact h
    · exact ihb a (hC a b h) b2 (by omega)

theorem vertical_cost_map_lookup (e : Surf) (overlap psize x y : ℕ)
    (hx : x < overlap) (hy : y < psize) :
    vertical_cost_map e overlap psize (x, y) = some (vCost e overlap y x) := by
  obtain ⟨hA, hC, hall⟩ := vertical_cost_map_spec e overlap psize
  have h1 := hall x hx
  have h2 := VMemoClosed_descend (vertical_cost_map e overlap psize) hC
    (psize - 1) x h1 y (by omega)
  obtain ⟨v, hv⟩ := Option.isSome_iff_exists.mp h2
  rw [hv, hA x y v hv]

theorem HMemoAgrees_insert (e : Surf) (overlap : ℕ) (m : CostMap)
    (x y : ℕ) (v : ℤ) (hA : HMemoAgrees e overlap m)
    (hv : v = hCost e overlap x y) :
    HMemoAgrees e overlap (costInsert m (x, y) v) := by
  intro a b w hw
  by_cases hq : ((a, b) : ℕ × ℕ) = (x, y)
  · unfold costInsert at hw
    rw [if_pos hq] at hw
    injection hq with ha hb
    subst ha
    subst hb
    injection hw with hw2
    rw [← hw2]
    exact hv
  · rw [costInsert_ne m (x, y) v (a, b) hq] at hw
    exact hA a b w hw

theorem HMemoClosed_insert_base (m : CostMap) (y : ℕ) (v : ℤ)
    (hC : HMemoClosed m) : HMemoClosed (costInsert m (0, y) v) := by
  intro a b hb
  rw [costInsert_ne m (0, y) v (a + 1, b) (by simp)] at hb
  exact costInsert_isSome m (0, y) v (a, b) (hC a b hb)

theorem HMemoClosed_insert_succ (m : CostMap) (x y : ℕ) (v : ℤ)
    (hC : HMemoClosed m) (hbelow : (m (x, y)).isSome) :
    HMemoClosed (costInsert m (x + 1, y) v) := by
  intro a b hb
  by_cases hq : ((a + 1, b) : ℕ × ℕ) = (x + 1, y)
  · injection hq with ha hb2
    subst hb2
    have ha2 : a = x := by omega
    subst ha2
    exact costInsert_isSome m (a + 1, b) v (a, b) hbelow
  · rw [costInsert_ne m (x + 1, y) v (a + 1, b) hq] at hb
    exact costInsert_isSome m (x + 1, y) v (a, b) (hC a b hb)

theorem hpe_zero_hit (e : Surf) (overlap y : ℕ) (m : CostMap) (v : ℤ)
    (h : m (0, y) = some v) :
    horizontal_pixel_error e overlap 0 y m = (v, m) := by
  unfold horizontal_pixel_error
  rw [h]

theorem hpe_zero_miss (e : Surf) (overlap y : ℕ) (m : CostMap)
    (h : m (0, y) = none) :
    horizontal_pixel_error e overlap 0 y m =
      (e 0 y, costInsert m (0, y) (e 0 y)) := by
  unfold horizontal_pixel_error
  rw [h]

theorem hpe_succ_hit (e : Surf) (overlap x y : ℕ) (m : CostMap) (v : ℤ)
    (h : m (x + 1, y) = some v) :
    horizontal_pixel_error e overlap (x + 1) y m = (v, m) := by
  unfold horizontal_pixel_error
  rw [h]

theorem hpe_succ_miss_lone (e : Surf) (overlap x y : ℕ) (m : CostMap)
    (h : m (x + 1, y) = none) (hy0 : y = 0) (hyr : y = overlap - 1) :
    horizontal_pixel_error e overlap (x + 1) y m =
      ((horizontal_pixel_error e overlap x y m).1 + e (x + 1) y,
       costInsert (horizontal_pixel_error e overlap x y m).2 (x + 1, y)
         ((horizontal_pixel_error e overlap x y m).1 + e (x + 1) y)) := by
  subst hy0
  conv_lhs => rw [horizontal_pixel_error]
  rw [h]
  dsimp only
  rw [if_neg (not_not_intro hyr), if_neg (not_not_intro rfl)]

theorem hpe_succ_miss_right (e : Surf) (overlap x y : ℕ) (m : CostMap)
    (h : m (x + 1, y) = none) (hy0 : y = 0) (hyr : y ≠ overlap - 1) :
    horizontal_pixel_error e overlap (x + 1) y m =
      (min (horizontal_pixel_error e overlap x (y + 1)
              (horizontal_pixel_error e overlap x y m).2).1
           (horizontal_pixel_error e overlap x y m).1 + e (x + 1) y,
       costInsert (horizontal_pixel_error e overlap x (y + 1)
              (horizontal_pixel_error e overlap x y m).2).2 (x + 1, y)
         (min (horizontal_pixel_error e overlap x (y + 1)
                 (horizontal_pixel_error e overlap x y m).2).1
              (horizontal_pixel_error e overlap x y m).1 + e (x + 1) y)) := by
  subst hy0
  conv_lhs => rw [horizontal_pixel_error]
  rw [h]
  dsimp only
  rw [if_pos hyr, if_neg (not_not_intro rfl), if_lt_eq_min]

theorem hpe_succ_miss_left (e : Surf) (overlap x y : ℕ) (m : CostMap)
    (h : m (x + 1, y) = none) (hy0 : y ≠ 0) (hyr : y = overlap - 1) :
    horizontal_pixel_error e overlap (x + 1) y m =
      (min (horizontal_pixel_error e overlap x (y - 1)
              (horizontal_pixel_error e overlap x y m).2).1
           (horizontal_pixel_error e overlap x y m).1 + e (x + 1) y,
       costInsert (horizontal_pixel_error e overlap x (y - 1)
              (horizontal_pixel_error e overlap x y m).2).2 (x + 1, y)
         (min (horizontal_pixel_error e overlap x (y - 1)
                 (horizontal_pixel_error e overlap x y m).2).1
              (horizontal_pixel_error e overlap x y m).1 + e (x + 1) y)) := by
  conv_lhs => rw [horizontal_pixel_error]
  rw [h]
  dsimp only
  rw [if_neg (not_not_intro hyr), if_pos hy0, if_lt_eq_min]

theorem hpe_succ_miss_mid (e : Surf) (overlap x y : ℕ) (m : CostMap)
    (h : m (x + 1, y) = none) (hy0 : y ≠ 0) (hyr : y ≠ overlap - 1) :
    horizontal_pixel_error e overlap (x + 1) y m =
      (min (horizontal_pixel_error e overlap x (y + 1)
              (horizontal_pixel_error e overlap x (y - 1)
                (horizontal_pixel_error e overlap x y m).2).2).1
           (min (horizontal_pixel_error e overlap x (y - 1)
                   (horizontal_pixel_error e overlap x y m).2).1
                (horizontal_pixel_error e overlap x y m).1) + e (x + 1) y,
       costInsert (horizontal_pixel_error e overlap x (y + 1)
              (horizontal_pixel_error e overlap x (y - 1)
                (horizontal_pixel_error e overlap x y m).2).2).2 (x + 1, y)
         (min (horizontal_pixel_error e overlap x (y + 1)
                 (horizontal_pixel_error e overlap x (y - 1)
                   (horizontal_pixel_error e overlap x y m).2).2).1
              (min (horizontal_pixel_error e overlap x (y - 1)
                      (horizontal_pixel_error e overlap x y m).2).1
                   (horizontal_pixel_error e overlap x y m).1) + e (x + 1) y)) := by
  conv_lhs => rw [horizontal_pixel_error]
  rw [h]
  dsimp only
  rw [if_pos hyr, if_pos hy0, if_lt_eq_min, if_lt_eq_min]

theorem hCost_succ (e : Surf) (overlap x y : ℕ) :
    hCost e overlap (x + 1) y =
      (if y ≠ overlap - 1 then
         min (hCost e overlap x (y + 1))
           (if y ≠ 0 then min (hCost e overlap x (y - 1)) (hCost e overlap x y)
            else hCost e overlap x y)
       else
         (if y ≠ 0 then min (hCost e overlap x (y - 1)) (hCost e overlap x y)
          else hCost e overlap x y)) + e (x + 1) y :=
  rfl

theorem horizontal_pixel_error_spec (e : Surf) (overlap : ℕ) :
    ∀ x y m, HMemoAgrees e overlap m → HMemoClosed m →
      (horizontal_pixel_error e overlap x y m).1 = hCost e overlap x y ∧
      HMemoAgrees e overlap (horizontal_pixel_error e overlap x y m).2 ∧
      HMemoClosed (horizontal_pixel_error e overlap x y m).2 ∧
      (∀ k, (m k).isSome → ((horizontal_pixel_error e overlap x y m).2 k).isSome) ∧
      ((horizontal_pixel_error e overlap x y m).2 (x, y)).isSome := by
  intro x
  induction x with
  | zero =>
    intro y m hA hC
    cases hmm : m (0, y) with
    | some v =>
      rw [hpe_zero_hit e overlap y m v hmm]
      exact ⟨hA 0 y v hmm, hA, hC, fun k hk => hk, by dsimp only; rw [hmm]; rfl⟩
    | none =>
      rw [hpe_zero_miss e overlap y m hmm]
      refine ⟨rfl, ?_, ?_, ?_, ?_⟩
      · exact HMemoAgrees_insert e overlap m 0 y (e 0 y) hA rfl
      · exact HMemoClosed_insert_base m y (e 0 y) hC
      · intro k hk
        exact costInsert_isSome m (0, y) (e 0 y) k hk
      · dsimp only
        rw [costInsert_self]
        rfl
  | succ x ih =>
    intro y m hA hC
    cases hmm : m (x + 1, y) with
    | some v =>
      rw [hpe_succ_hit e overlap x y m v hmm]
      exact ⟨hA (x + 1) y v hmm, hA, hC, fun k hk => hk, by dsimp only; rw [hmm]; rfl⟩
    | none =>
      obtain ⟨ha1, ha2, ha3, ha4, ha5⟩ := ih y m hA hC
      by_cases hy0 : y = 0 <;> by_cases hyr : y = overlap - 1
      · rw [hpe_succ_miss_lone e overlap x y m hmm hy0 hyr]
        have hr : (horizontal_pixel_error e overlap x y m).1 + e (x + 1) y =
            hCost e overlap (x + 1) y := by
          rw [ha1, hCost_succ, if_neg (not_not_intro hyr),
            if_neg (not_not_intro hy0)]
        refine ⟨hr, HMemoAgrees_insert e overlap _ (x + 1) y _ ha2 hr,
          HMemoClosed_insert_succ _ x y _ ha3 ha5,
          fun k hk => costInsert_isSome _ _ _ k (ha4 k hk), ?_⟩
        dsimp only
        rw [costInsert_self]
        rfl
      · rw [hpe_succ_miss_right e overlap x y m hmm hy0 hyr]
        obtain ⟨hc1, hc2, hc3, hc4, hc5⟩ :=
          ih (y + 1) (horizontal_pixel_error e overlap x y m).2 ha2 ha3
        have hr : min (horizontal_pixel_error e overlap x (y + 1)
                (horizontal_pixel_error e overlap x y m).2).1
              (horizontal_pixel_error e overlap x y m).1 + e (x + 1) y =
            hCost e overlap (x + 1) y := by
          rw [ha1, hc1, hCost_succ, if_pos hyr, if_neg (not_not_intro hy0)]
        refine ⟨hr, HMemoAgrees_insert e overlap _ (x + 1) y _ hc2 hr,
          HMemoClosed_insert_succ _ x y _ hc3 (hc4 (x, y) ha5),
          fun k hk => costInsert_isSome _ _ _ k (hc4 k (ha4 k hk)), ?_⟩
        dsimp only
        rw [costInsert_self]
        rfl
      · rw [hpe_succ_miss_left e overlap x y m hmm hy0 hyr]
        obtain ⟨hb1, hb2, hb3, hb4, hb5⟩ :=
          ih (y - 1) (horizontal_pixel_error e overlap x y m).2 ha2 ha3
        have hr : min (horizontal_pixel_error e overlap x (y - 1)
                (horizontal_pixel_error e overlap x y m).2).1
              (horizontal_pixel_error e overlap x y m).1 + e (x + 1) y =
            hCost e overlap (x + 1) y := by
          rw [ha1, hb1, hCost_succ, if_neg (not_not_intro hyr), if_pos hy0]
        refine ⟨hr, HMemoAgrees_insert e overlap _ (x + 1) y _ hb2 hr,
          HMemoClosed_insert_succ _ x y _ hb3 (hb4 (x, y) ha5),
          fun k hk => costInsert_isSome _ _ _ k (hb4 k (ha4 k hk)), ?_⟩
        dsimp only
        rw [costInsert_self]
        rfl
      · rw [hpe_succ_miss_mid e overlap x y m hmm hy0 hyr]
        obtain ⟨hb1, hb2, hb3, hb4, hb5⟩ :=
          ih (y - 1) (horizontal_pixel_error e overlap x y m).2 ha2 ha3
        obtain ⟨hc1, hc2, hc3, hc4, hc5⟩ :=
          ih (y + 1) (horizontal_pixel_error e overlap x (y - 1)
            (horizontal_pixel_error e overlap x y m).2).2 hb2 hb3
        have hr : min (horizontal_pixel_error e overlap x (y + 1)
                (horizontal_pixel_error e overlap x (y - 1)
                  (horizontal_pixel_error e overlap x y m).2).2).1
              (min (horizontal_pixel_error e overlap x (y - 1)
                      (horizontal_pixel_error e overlap x y m).2).1
                   (horizontal_pixel_error e overlap x y m).1) + e (x + 1) y =
            hCost e overlap (x + 1) y := by
          rw [ha1, hb1, hc1, hCost_succ, if_pos hyr, if_pos hy0]
        refine ⟨hr, HMemoAgrees_insert e overlap _ (x + 1) y _ hc2 hr,
          HMemoClosed_insert_succ _ x y _ hc3 (hc4 (x, y) (hb4 (x, y) ha5)),
          fun k hk => costInsert_isSome _ _ _ k (hc4 k (hb4 k (ha4 k hk))), ?_⟩
        dsimp only
        rw [costInsert_self]
        rfl

theorem horizontal_cost_fold_spec (e : Surf) (overlap psize : ℕ) :
    ∀ (l : List ℕ) (m : CostMap), HMemoAgrees e overlap m → HMemoClosed m →
      HMemoAgrees e overlap
        (l.foldl (fun m y => (horizontal_pixel_error e overlap (psize - 1) y m).2) m) ∧
      HMemoClosed
        (l.foldl (fun m y => (horizontal_pixel_error e overlap (psize - 1) y m).2) m) ∧
      (∀ k, (m k).isSome →
        ((l.foldl (fun m y => (horizontal_pixel_error e overlap (psize - 1) y m).2) m) k).isSome) ∧
      (∀ y ∈ l,
        ((l.foldl (fun m y => (horizontal_pixel_error e overlap (psize - 1) y m).2) m)
          (psize - 1, y)).isSome) := by
  intro l
  induction l with
  | nil =>
    intro m hA hC
    exact ⟨hA, hC, fun k hk => hk, fun y hy => absurd hy (List.not_mem_nil y)⟩
  | cons a l ihl =>
    intro m hA hC
    obtain ⟨h1, h2, h3, h4, h5⟩ :=
      horizontal_pixel_error_spec e overlap (psize - 1) a m hA hC
    obtain ⟨g1, g2, g3, g4⟩ :=
      ihl (horizontal_pixel_error e overlap (psize - 1) a m).2 h2 h3
    refine ⟨g1, g2, fun k hk => g3 k (h4 k hk), ?_⟩
    intro y hy
    rcases List.mem_cons.mp hy with rfl | hy2
    · exact g3 (psize - 1, y) h5
    · exact g4 y hy2

theorem horizontal_cost_map_spec (e : Surf) (overlap psize : ℕ) :
    HMemoAgrees e overlap (horizontal_cost_map e overlap psize) ∧
    HMemoClosed (horizontal_cost_map e overlap psize) ∧
    ∀ y < overlap, ((horizontal_cost_map e overlap psize) (psize - 1, y)).isSome := by
  obtain ⟨g1, g2, g3, g4⟩ :=
    horizontal_cost_fold_spec e overlap psize (List.range overlap) costEmpty
      (fun a b v hv => by simp [costEmpty] at hv)
      (fun a b hb => by simp [costEmpty] at hb)
  exact ⟨g1, g2, fun y hy => g4 y (List.mem_range.mpr hy)⟩

theorem HMemoClosed_descend (m : CostMap) (hC : HMemoClosed m) :
    ∀ a b, (m (a, b)).isSome → ∀ a2, a2 ≤ a → (m (a2, b)).isSome := by
  intro a
  induction a with
  | zero =>
    intro b h a2 ha2
    have hz : a2 = 0 := by omega
    subst hz
    exact h
  | succ a iha =>
    intro b h a2 ha2
    rcases Nat.eq_or_lt_of_le ha2 with rfl | hlt
    · exact h
    · exact iha b (hC a b h) a2 (by omega)

theorem horizontal_cost_map_lookup (e : Surf) (overlap psize x y : ℕ)
    (hx : x < psize) (hy : y < overlap) :
    horizontal_cost_map e overlap psize (x, y) = some (hCost e overlap x y) := by
  obtain ⟨hA, hC, hall⟩ := horizontal_cost_map_spec e overlap psize
  have h1 := hall y hy
  have h2 := HMemoClosed_descend (horizontal_cost_map e overlap psize) hC
    (psize - 1) y h1 x (by omega)
  obtain ⟨v, hv⟩ := Option.isSome_iff_exists.mp h2
  rw [hv, hA x y v hv]

/-- Claim C4: for every error surface `e`, every column `x < overlap` and
every row `y < patch_size`, the memoized vertical cost map holds at `(x, y)`
exactly the value of the claimed recurrence `vCost` (row 0 = raw error
value; row `y+1` = own error value plus the minimum of the up-to-3 entries
directly above, clipped at the overlap edges), and the horizontal cost map
holds at `(y, x)` (column `y < patch_size`, row `x < overlap`) exactly the
value of the transposed recurrence `hCost`. -/
theorem quilt_cost_maps_satisfy_dp_recurrence (e : Surf)
    (overlap patch_size x y : ℕ) (hx : x < overlap) (hy : y < patch_size) :
    vertical_cost_map e overlap patch_size (x, y) = some (vCost e overlap y x) ∧
    horizontal_cost_map e overlap patch_size (y, x) = some (hCost e overlap y x) :=
  ⟨vertical_cost_map_lookup e overlap patch_size x y hx hy,
   horizontal_cost_map_lookup e overlap patch_size y x hy hx⟩

/-- Witness for claim C4 at the surface `surfC4`, `overlap = 2`,
`patch_size = 4`, cell `x = 1`, `y = 3`. -/
theorem quilt_cost_maps_satisfy_dp_recurrence_witness :
    ((1 : ℕ) < 2 ∧ (3 : ℕ) < 4) ∧
    (vertical_cost_map surfC4 2 4 (1, 3) = some (vCost surfC4 2 3 1) ∧
     horizontal_cost_map surfC4 2 4 (3, 1) = some (hCost surfC4 2 3 1)) :=
  ⟨⟨by decide, by decide⟩,
    quilt_cost_maps_satisfy_dp_recurrence surfC4 2 4 1 3 (by decide) (by decide)⟩

theorem mapLookups_all (m : CostMap) :
    ∀ ks : List (ℕ × ℕ), (∀ k ∈ ks, (m k).isSome) →
      ∃ vs, mapLookups m ks = some vs ∧ vs.length = ks.length := by
  intro ks
  induction ks with
  | nil =>
    intro _
    exact ⟨[], rfl, rfl⟩
  | cons k ks ihk =>
    intro h
    obtain ⟨v, hv⟩ := Option.isSome_iff_exists.mp (h k (List.mem_cons_self k ks))
    obtain ⟨vs, hvs, hlen⟩ := ihk (fun q hq => h q (List.mem_cons_of_mem k hq))
    refine ⟨v :: vs, ?_, by simp [hlen]⟩
    conv_lhs => rw [mapLookups]
    rw [hv, hvs]

theorem argminGo_lt :
    ∀ (ws : List ℤ) (bi : ℕ) (bv : ℤ) (i : ℕ), bi < i →
      argminGo bi bv i ws < i + ws.length := by
  intro ws
  induction ws with
  | nil =>
    intro bi bv i h
    simpa [argminGo] using h
  | cons w ws ih =>
    intro bi bv i h
    rw [argminGo]
    by_cases hlt : w < bv
    · rw [if_pos hlt]
      have := ih i w (i + 1) (by omega)
      simp only [List.length_cons]
      omega
    · rw [if_neg hlt]
      have := ih bi bv (i + 1) (by omega)
      simp only [List.length_cons]
      omega

theorem argminIdx_lt (l : List ℤ) (i : ℕ) (h : argminIdx l = some i) :
    i < l.length := by
  cases l with
  | nil => cases h
  | cons v vs =>
    injection h with h2
    have := argminGo_lt vs 0 v 1 (by omega)
    simp only [List.length_cons]
    omega

theorem vpath_step_spec (m : CostMap) (overlap psize : ℕ)
    (hall : ∀ a b, a < overlap → b < psize → (m (a, b)).isSome)
    (hov : 2 ≤ overlap) (x y0 : ℕ) (hx : x < overlap) (hy : y0 < psize) :
    ∃ x1, vpath_step m overlap x y0 = some x1 ∧ x1 < overlap ∧
      Nat.dist x x1 ≤ 1 := by
  obtain ⟨top, htop⟩ := Option.isSome_iff_exists.mp (hall x y0 hx hy)
  unfold vpath_step
  rw [htop]
  dsimp only
  by_cases hx0 : x = 0
  · rw [if_pos hx0]
    obtain ⟨right, hright⟩ := Option.isSome_iff_exists.mp
      (hall (x + 1) y0 (by omega) hy)
    rw [hright]
    refine ⟨_, rfl, ?_, ?_⟩
    · split_ifs <;> omega
    · split_ifs
      · show x - (x + 1) + (x + 1 - x) ≤ 1
        omega
      · show x - x + (x - x) ≤ 1
        omega
  · rw [if_neg hx0]
    by_cases hxr : x = overlap - 1
    · rw [if_pos hxr]
      obtain ⟨left, hleft⟩ := Option.isSome_iff_exists.mp
        (hall (x - 1) y0 (by omega) hy)
      rw [hleft]
      refine ⟨_, rfl, ?_, ?_⟩
      · split_ifs <;> omega
      · split_ifs
        · show x - (x - 1) + (x - 1 - x) ≤ 1
          omega
        · show x - x + (x - x) ≤ 1
          omega
    · rw [if_neg hxr]
      obtain ⟨left, hleft⟩ := Option.isSome_iff_exists.mp
        (hall (x - 1) y0 (by omega) hy)
      obtain ⟨right, hright⟩ := Option.isSome_iff_exists.mp
        (hall (x + 1) y0 (by omega) hy)
      rw [hleft, hright]
      refine ⟨_, rfl, ?_, ?_⟩
      · split_ifs <;> omega
      · split_ifs
        · show x - (x - 1) + (x - 1 - x) ≤ 1
          omega
        · show x - x + (x - x) ≤ 1
          omega
        · show x - (x + 1) + (x + 1 - x) ≤ 1
          omega
        · show x - x + (x - x) ≤ 1
          omega

theorem vpath_walk_spec (m : CostMap) (overlap psize : ℕ)
    (hall : ∀ a b, a < overlap → b < psize → (m (a, b)).isSome)
    (hov : 2 ≤ overlap) :
    ∀ y x, y < psize → x < overlap →
      ∃ l, vpath_walk m overlap y x = some l ∧
        l.map Prod.snd = (List.range y).reverse ∧
        (∀ c ∈ l, c.1 < overlap) ∧
        List.Chain' (fun a b => Nat.dist a.1 b.1 ≤ 1) ((x, y) :: l) := by
  intro y
  induction y with
  | zero =>
    intro x hy hx
    exact ⟨[], rfl, by simp, fun c hc => absurd hc (List.not_mem_nil c),
      List.chain'_singleton (x, 0)⟩
  | succ y ihy =>
    intro x hy hx
    obtain ⟨x1, hstep, hx1, hdist⟩ :=
      vpath_step_spec m overlap psize hall hov x y hx (by omega)
    obtain ⟨l, hwalk, hmap, hbound, hchain⟩ := ihy x1 (by omega) hx1
    refine ⟨(x1, y) :: l, ?_, ?_, ?_, ?_⟩
    · conv_lhs => rw [vpath_walk]
      rw [hstep]
      dsimp only
      rw [hwalk]
    · simp [List.range_succ, hmap]
    · intro c hc
      rcases List.mem_cons.mp hc with rfl | hc2
      · exact hx1
      · exact hbound c hc2
    · exact List.chain'_cons.mpr ⟨hdist, hchain⟩

theorem hpath_step_spec (m : CostMap) (overlap psize : ℕ)
    (hall : ∀ a b, a < psize → b < overlap → (m (a, b)).isSome)
    (hov : 2 ≤ overlap) (x0 y : ℕ) (hx : x0 < psize) (hy : y < overlap) :
    ∃ y1, hpath_step m overlap x0 y = some y1 ∧ y1 < overlap ∧
      Nat.dist y y1 ≤ 1 := by
  obtain ⟨left, hleft⟩ := Option.isSome_iff_exists.mp (hall x0 y hx hy)
  unfold hpath_step
  rw [hleft]
  dsimp only
  by_cases hy0 : y = 0
  · rw [if_pos hy0]
    obtain ⟨down, hdown⟩ := Option.isSome_iff_exists.mp
      (hall x0 (y + 1) hx (by omega))
    rw [hdown]
    refine ⟨_, rfl, ?_, ?_⟩
    · split_ifs <;> omega
    · split_ifs
      · show y - (y + 1) + (y + 1 - y) ≤ 1
        omega
      · show y - y + (y - y) ≤ 1
        omega
  · rw [if_neg hy0]
    by_cases hyr : y = overlap - 1
    · rw [if_pos hyr]
      obtain ⟨up, hup⟩ := Option.isSome_iff_exists.mp
        (hall x0 (y - 1) hx (by omega))
      rw [hup]
      refine ⟨_, rfl, ?_, ?_⟩
      · split_ifs <;> omega
      · split_ifs
        · show y - (y - 1) + (y - 1 - y) ≤ 1
          omega
        · show y - y + (y - y) ≤ 1
          omega
    · rw [if_neg hyr]
      obtain ⟨up, hup⟩ := Option.isSome_iff_exists.mp
        (hall x0 (y - 1) hx (by omega))
      obtain ⟨down, hdown⟩ := Option.isSome_iff_exists.mp
        (hall x0 (y + 1) hx (by omega))
      rw [hup, hdown]
      refine ⟨_, rfl, ?_, ?_⟩
      · split_ifs <;> omega
      · split_ifs
        · show y - (y - 1) + (y - 1 - y) ≤ 1
          omega
        · show y - y + (y - y) ≤ 1
          omega
        · show y - (y + 1) + (y + 1 - y) ≤ 1
          omega
        · show y - y + (y - y) ≤ 1
          omega

theorem hpath_walk_spec (m : CostMap) (overlap psize : ℕ)
    (hall : ∀ a b, a < psize → b < overlap → (m (a, b)).isSome)
    (hov : 2 ≤ overlap) :
    ∀ x y, x < psize → y < overlap →
      ∃ l, hpath_walk m overlap x y = some l ∧
        l.map Prod.fst = (List.range x).reverse ∧
        (∀ c ∈ l, c.2 < overlap) ∧
        List.Chain' (fun a b => Nat.dist a.2 b.2 ≤ 1) ((x, y) :: l) := by
  intro x
  induction x with
  | zero =>
    intro y hx hy
    exact ⟨[], rfl, by simp, fun c hc => absurd hc (List.not_mem_nil c),
      List.chain'_singleton (0, y)⟩
  | succ x ihx =>
    intro y hx hy
    obtain ⟨y1, hstep, hy1, hdist⟩ :=
      hpath_step_spec m overlap psize hall hov x y (by omega) hy
    obtain ⟨l, hwalk, hmap, hbound, hchain⟩ := ihx y1 (by omega) hy1
    refine ⟨(x, y1) :: l, ?_, ?_, ?_, ?_⟩
    · conv_lhs => rw [hpath_walk]
      rw [hstep]
      dsimp only
      rw [hwalk]
    · simp [List.range_succ, hmap]
    · intro c hc
      rcases List.mem_cons.mp hc with rfl | hc2
      · exact hy1
      · exact hbound c hc2
    · exact List.chain'_cons.mpr ⟨hdist, hchain⟩

/-- Claim C5 counterexample: with `overlap = 1` and `patch_size = 2` — valid
parameters (`overlap ≥ 1`, `patch_size ≥ 2·overlap`) — both seam-path
functions index a missing cost-map key (the `x == 0` branch of the vertical
walk unconditionally reads column `x + 1 = 1`, which an overlap-1 vertical
cost map never contains; transposed for the horizontal walk), which panics
in Rust: no path satisfying the claimed shape is returned. -/
theorem seam_paths_panic_at_overlap_one :
    minimum_cost_vertical_path (fun _ _ => 0) 1 2 = none ∧
    minimum_cost_horizontal_path (fun _ _ => 0) 1 2 = none ∧
    (1 : ℕ) ≥ 1 ∧ (2 : ℕ) ≥ 2 * 1 :=
  ⟨by decide, by decide, by decide, by decide⟩

/-- Claim C5 (amended): for every error surface and `overlap ≥ 2` with
`patch_size ≥ 2·overlap`, the vertical seam path is returned and contains
exactly one coordinate per row `y ∈ [0, patch_size)` (rows are visited from
`patch_size - 1` down to `0`), every column lies in `[0, overlap)`, and
consecutive entries differ by at most one column; the horizontal path
satisfies the transposed statement. -/
theorem minimum_cost_paths_wellformed (e : Surf) (overlap patch_size : ℕ)
    (hov : 2 ≤ overlap) (hps : 2 * overlap ≤ patch_size) :
    (∃ p, minimum_cost_vertical_path e overlap patch_size = some p ∧
       p.map Prod.snd = (List.range patch_size).reverse ∧
       (∀ c ∈ p, c.1 < overlap) ∧
       List.Chain' (fun a b => Nat.dist a.1 b.1 ≤ 1) p) ∧
    (∃ p, minimum_cost_horizontal_path e overlap patch_size = some p ∧
       p.map Prod.fst = (List.range patch_size).reverse ∧
       (∀ c ∈ p, c.2 < overlap) ∧
       List.Chain' (fun a b => Nat.dist a.2 b.2 ≤ 1) p) := by
  constructor
  · have hall : ∀ a b, a < overlap → b < patch_size →
        ((vertical_cost_map e overlap patch_size) (a, b)).isSome := by
      intro a b ha hb
      rw [vertical_cost_map_lookup e overlap patch_size a b ha hb]
      rfl
    obtain ⟨row, hrow, hlen⟩ :=
      mapLookups_all (vertical_cost_map e overlap patch_size)
        ((List.range overlap).map (fun x => (x, patch_size - 1)))
        (by
          intro k hk
          obtain ⟨x, hxmem, rfl⟩ := List.mem_map.mp hk
          exact hall x (patch_size - 1) (List.mem_range.mp hxmem) (by omega))
    have hrowlen : row.length = overlap := by
      rw [hlen]
      simp
    obtain ⟨x0, hx0⟩ : ∃ x0, argminIdx row = some x0 := by
      cases hrow2 : row with
      | nil =>
        rw [hrow2] at hrowlen
        simp at hrowlen
        omega
      | cons v vs => exact ⟨argminGo 0 v 1 vs, rfl⟩
    have hx0lt : x0 < overlap := by
      have := argminIdx_lt row x0 hx0
      omega
    obtain ⟨l, hwalk, hmap, hbound, hchain⟩ :=
      vpath_walk_spec (vertical_cost_map e overlap patch_size) overlap
        patch_size hall hov (patch_size - 1) x0 (by omega) hx0lt
    refine ⟨(x0, patch_size - 1) :: l, ?_, ?_, ?_, ?_⟩
    · unfold minimum_cost_vertical_path
      dsimp only
      rw [hrow]
      dsimp only
      rw [hx0]
      dsimp only
      rw [hwalk]
    · show ((x0, patch_size - 1) :: l).map Prod.snd =
        (List.range patch_size).reverse
      conv_rhs => rw [show patch_size = patch_size - 1 + 1 from by omega]
      simp [List.range_succ, hmap]
    · intro c hc
      rcases List.mem_cons.mp hc with rfl | hc2
      · exact hx0lt
      · exact hbound c hc2
    · exact hchain
  · have hall : ∀ a b, a < patch_size → b < overlap →
        ((horizontal_cost_map e overlap patch_size) (a, b)).isSome := by
      intro a b ha hb
      rw [horizontal_cost_map_lookup e overlap patch_size a b ha hb]
      rfl
    obtain ⟨column, hcol, hlen⟩ :=
      mapLookups_all (horizontal_cost_map e overlap patch_size)
        ((List.range overlap).map (fun y => (patch_size - 1, y)))
        (by
          intro k hk
          obtain ⟨y, hymem, rfl⟩ := List.mem_map.mp hk
          exact hall (patch_size - 1) y (by omega) (List.mem_range.mp hymem))
    have hcollen : column.length = overlap := by
      rw [hlen]
      simp
    obtain ⟨y0, hy0⟩ : ∃ y0, argminIdx column = some y0 := by
      cases hcol2 : column with
      | nil =>
        rw [hcol2] at hcollen
        simp at hcollen
        omega
      | cons v vs => exact ⟨argminGo 0 v 1 vs, rfl⟩
    have hy0lt : y0 < overlap := by
      have := argminIdx_lt column y0 hy0
      omega
    obtain ⟨l, hwalk, hmap, hbound, hchain⟩ :=
      hpath_walk_spec (horizontal_cost_map e overlap patch_size) overlap
        patch_size hall hov (patch_size - 1) y0 (by omega) hy0lt
    refine ⟨(patch_size - 1, y0) :: l, ?_, ?_, ?_, ?_⟩
    · unfold minimum_cost_horizontal_path
      dsimp only
      rw [hcol]
      dsimp only
      rw [hy0]
      dsimp only
      rw [hwalk]
    · show ((patch_size - 1, y0) :: l).map Prod.fst =
        (List.range patch_size).reverse
      conv_rhs => rw [show patch_size = patch_size - 1 + 1 from by omega]
      simp [List.range_succ, hmap]
    · intro c hc
      rcases List.mem_cons.mp hc with rfl | hc2
      · exact hy0lt
      · exact hbound c hc2
    · exact hchain

/-- Witness for the amended claim C5 at the surface `surfC4`,
`overlap = 2`, `patch_size = 4`. -/
theorem minimum_cost_paths_wellformed_witness :
    ((2 : ℕ) ≤ 2 ∧ 2 * 2 ≤ 4) ∧
    ((∃ p, minimum_cost_vertical_path surfC4 2 4 = some p ∧
        p.map Prod.snd = (List.range 4).reverse ∧
        (∀ c ∈ p, c.1 < 2) ∧
        List.Chain' (fun a b => Nat.dist a.1 b.1 ≤ 1) p) ∧
     (∃ p, minimum_cost_horizontal_path surfC4 2 4 = some p ∧
        p.map Prod.fst = (List.range 4).reverse ∧
        (∀ c ∈ p, c.2 < 2) ∧
        List.Chain' (fun a b => Nat.dist a.2 b.2 ≤ 1) p)) :=
  ⟨⟨by decide, by decide⟩,
    minimum_cost_paths_wellformed surfC4 2 4 (by decide) (by decide)⟩

end TexSyn
